import Mathlib

/-!
Verification of the core pipeline of the sitemap-to-CSV converter:
the sanitizer `cleanXmlContent`, the extractor `parseSitemap` (modelled
over parsed XML trees, since the XML parser itself is a platform
builtin), and the CSV serializer.  Strings are modelled as `List Char`
for the character-level sanitizer and as Lean `String` elsewhere.
-/

/-! ### Character utilities -/

/-- Whitespace characters recognised by the JavaScript `trim` / `split`
machinery (ASCII whitespace, NBSP, Unicode space separators, line and
paragraph separators, BOM). -/
def wsChars : List Char :=
  [' ', '\t', '\n', '\r', '\x0b', '\x0c', '\xa0', '\u1680',
   '\u2000', '\u2001', '\u2002', '\u2003', '\u2004', '\u2005',
   '\u2006', '\u2007', '\u2008', '\u2009', '\u200a', '\u202f',
   '\u205f', '\u3000', '\u2028', '\u2029', '\ufeff']

/-- Whether a character counts as whitespace for `trim`. -/
def isWsp (c : Char) : Bool := wsChars.contains c

/-- ASCII lower-casing, as performed by case-insensitive regex matching
over the ASCII pattern literals of the source. -/
def lowerc (c : Char) : Char :=
  if 65 ≤ c.toNat ∧ c.toNat ≤ 90 then Char.ofNat (c.toNat + 32) else c

/-- Case-insensitive match of the pattern against a prefix of the text. -/
def ciMatchHead : List Char → List Char → Bool
  | [], _ => true
  | _ :: _, [] => false
  | p :: ps, c :: cs => lowerc p == lowerc c && ciMatchHead ps cs

/-- Index of the first case-insensitive occurrence of the pattern in the
text, as returned by JavaScript `String.search` with an `i`-flagged
literal regex. -/
def ciFind (pat : List Char) : List Char → Option Nat
  | [] => if ciMatchHead pat [] then some 0 else none
  | c :: cs =>
    if ciMatchHead pat (c :: cs) then some 0
    else (ciFind pat cs).map (· + 1)

/-- Fuel-driven scan for `removeAllCI`: at each position, either skip a
case-insensitive occurrence of the pattern or keep the character.  One
unit of fuel is spent per position, and at least one character is
consumed per step, so fuel equal to the text length never runs out. -/
def removeAllCIAux (pat : List Char) : Nat → List Char → List Char
  | _, [] => []
  | 0, s => s
  | fuel + 1, c :: cs =>
    if 0 < pat.length ∧ ciMatchHead pat (c :: cs) then
      removeAllCIAux pat fuel (cs.drop (pat.length - 1))
    else
      c :: removeAllCIAux pat fuel cs

/-- Global removal of every (leftmost, non-overlapping) case-insensitive
occurrence of the pattern, as `String.replace` with a `gi`-flagged
literal regex and empty replacement. -/
def removeAllCI (pat : List Char) (s : List Char) : List Char :=
  removeAllCIAux pat s.length s

/-- JavaScript `String.trim`: drop leading and trailing whitespace. -/
def trimL (l : List Char) : List Char :=
  List.rdropWhile isWsp (l.dropWhile isWsp)

/-- JavaScript `String.split("\n")`: split on every newline. -/
def splitNl : List Char → List (List Char)
  | [] => [[]]
  | c :: cs =>
    if c = '\n' then [] :: splitNl cs
    else
      match splitNl cs with
      | [] => [[c]]
      | l :: ls => (c :: l) :: ls

/-- JavaScript `Array.join("\n")`. -/
def joinNl : List (List Char) → List Char
  | [] => []
  | [l] => l
  | l :: ls => l ++ '\n' :: joinNl ls

/-- Index of the first list element satisfying the test. -/
def findIdxOpt (p : α → Bool) : List α → Option Nat
  | [] => none
  | a :: as =>
    if p a then some 0 else (findIdxOpt p as).map (· + 1)

/-! ### The sanitizer `cleanXmlContent` -/

/-- First boilerplate phrase removed by the sanitizer. -/
def phrase1 : List Char :=
  "This XML file does not appear to have any style information associated with it.".data

/-- Second boilerplate phrase removed by the sanitizer. -/
def phrase2 : List Char := "The document tree is shown below.".data

/-- Third boilerplate phrase removed by the sanitizer. -/
def phrase3 : List Char := "This page contains the following errors:".data

/-- Fourth boilerplate phrase removed by the sanitizer. -/
def phrase4 : List Char :=
  "Below is a rendering of the page up to the first error.".data

/-- The four boilerplate phrases, in the order the source removes them. -/
def phrases : List (List Char) := [phrase1, phrase2, phrase3, phrase4]

/-- Step 1 of `cleanXmlContent`: the four chained global replacements. -/
def step1 (s : List Char) : List Char :=
  removeAllCI phrase4 (removeAllCI phrase3 (removeAllCI phrase2 (removeAllCI phrase1 s)))

/-- The five structural opener patterns, in the order the source's
`xmlStartPatterns` array lists them. -/
def xmlPats : List (List Char) :=
  ["<?xml".data, "<urlset".data, "<sitemapindex".data, "<rss".data, "<feed".data]

/-- The source's pattern loop: try each pattern in order and return the
position of the first pattern that occurs anywhere in the text. -/
def findXmlStart : List (List Char) → List Char → Option Nat
  | [], _ => none
  | p :: ps, s =>
    match ciFind p s with
    | some i => some i
    | none => findXmlStart ps s

/-- Step 3 of `cleanXmlContent`: cut at the position found by the pattern
loop, if any. -/
def step3 (s : List Char) : List Char :=
  match findXmlStart xmlPats s with
  | some i => s.drop i
  | none => s

/-- Whether a line, after trimming, is blank or starts with a left angle
bracket (the loop test of the source's step 4). -/
def lineOk (l : List Char) : Bool :=
  match trimL l with
  | [] => true
  | c :: _ => c == '<'

/-- Step 4 of `cleanXmlContent`: find the first blank-or-markup line and
discard the lines strictly before it (a no-op when that index is 0 or no
line qualifies, exactly as the source's `firstXmlLine > 0` test). -/
def step4 (s : List Char) : List Char :=
  match findIdxOpt lineOk (splitNl s) with
  | some k => if 0 < k then joinNl ((splitNl s).drop k) else s
  | none => s

/-- The sanitizer `cleanXmlContent`, steps 1-5 in source order. -/
def cleanXmlContent (s : List Char) : List Char :=
  trimL (step4 (step3 (trimL (step1 s))))

/-- String-level wrapper of the sanitizer. -/
def cleanXml (s : String) : String := String.mk (cleanXmlContent s.data)

/-- Following the spec's words for step 3 only: the earliest occurrence
position over all five patterns (not the source's priority order). -/
def specEarliest (s : List Char) : Option Nat :=
  (xmlPats.filterMap (fun p => ciFind p s)).min?

/-- Step 3 as the spec describes it: cut at the earliest occurrence of
any pattern. -/
def specStep3 (s : List Char) : List Char :=
  match specEarliest s with
  | some i => s.drop i
  | none => s

/-! ### The XML tree model and the extractor `parseSitemap`

The XML parser itself is a browser builtin (`DOMParser`), so the
extractor is modelled over already-parsed XML trees: `extract` receives
`none` when parsing failed and `some root` otherwise.  `querySelector`
selectors in the source are plain tag-name selectors; they are modelled
as name matching over the pre-order list of descendant elements, which
is exactly document order. -/

/-- A parsed XML node: an element with a tag name, attributes and
children, or a text node. -/
inductive XNode where
  | elem (name : String) (attrs : List (String × String)) (children : List XNode)
  | text (s : String)
deriving Repr

/-- One output record (`SitemapEntry` in the source).  The extractor
always sets the four string fields; `alternates` is only set when at
least one alternate link exists. -/
structure SitemapEntry where
  url : String
  lastModified : String
  changeFrequency : String
  priority : String
  alternates : Option String
deriving Repr, DecidableEq

mutual

/-- Pre-order list of element nodes of a tree, the node itself included
(document order, as traversed by `querySelectorAll`). -/
def descList : XNode → List XNode
  | .text _ => []
  | .elem n a cs => .elem n a cs :: descListL cs

/-- Pre-order element lists of a forest, concatenated. -/
def descListL : List XNode → List XNode
  | [] => []
  | x :: xs => descList x ++ descListL xs

end

mutual

/-- `textContent`: concatenation of all text beneath a node. -/
def textOf : XNode → String
  | .text s => s
  | .elem _ _ cs => textOfL cs

/-- `textContent` of a forest. -/
def textOfL : List XNode → String
  | [] => ""
  | x :: xs => textOf x ++ textOfL xs

end

/-- The children of a node (empty for text nodes). -/
def childrenOf : XNode → List XNode
  | .text _ => []
  | .elem _ _ cs => cs

/-- Descendant elements of a node, the node itself excluded (the search
space of an element-level `querySelector`). -/
def subDescs (e : XNode) : List XNode := descListL (childrenOf e)

/-- Whether a node is an element with the given tag name. -/
def isNamed (nm : String) : XNode → Bool
  | .elem n _ _ => n == nm
  | .text _ => false

/-- Element-level `querySelector(nm)`: first descendant element with the
given tag name, in document order. -/
def firstDesc (nm : String) (e : XNode) : Option XNode :=
  ((subDescs e).filter (isNamed nm)).head?

/-- `getAttribute`: `none` models the `null` returned for an absent
attribute. -/
def lookupAttr (k : String) : XNode → Option String
  | .elem _ attrs _ => (attrs.find? (fun p => p.1 == k)).map (·.2)
  | .text _ => none

/-- String interpolation of a possibly-`null` attribute value: the
literal `"null"` when the attribute is absent. -/
def attrOrNull : Option String → String
  | some s => s
  | none => "null"

/-- One alternate pair, `"{hreflang}: {href}"` as interpolated by the
source. -/
def altPair (alt : XNode) : String :=
  attrOrNull (lookupAttr "hreflang" alt) ++ ": " ++ attrOrNull (lookupAttr "href" alt)

/-- Whether a node matches the source's `"xhtml\\:link, link"` selector
list. -/
def isLinkEl (n : XNode) : Bool :=
  isNamed "xhtml:link" n || isNamed "link" n

/-- The alternate-link descendants of a url element, in document order. -/
def linkDescs (e : XNode) : List XNode := (subDescs e).filter isLinkEl

/-- `node?.textContent || ""`: empty string when the element is absent. -/
def textOrEmpty : Option XNode → String
  | none => ""
  | some n => textOf n

/-- Processing of one `url` element: skipped (`none`) when the `loc`
lookup yields no element or empty text (the source's truthiness test on
`querySelector("loc")?.textContent`), otherwise the record built from
the optional children and alternate links. -/
def entryOfUrlElem (e : XNode) : Option SitemapEntry :=
  match (firstDesc "loc" e).map textOf with
  | none => none
  | some t =>
    if t = "" then none
    else some {
      url := t
      lastModified := textOrEmpty (firstDesc "lastmod" e)
      changeFrequency := textOrEmpty (firstDesc "changefreq" e)
      priority := textOrEmpty (firstDesc "priority" e)
      alternates :=
        match linkDescs e with
        | [] => none
        | alts => some (String.intercalate "; " (alts.map altPair)) }

/-- Processing of one `sitemap` element of a sitemap index. -/
def entryOfSitemapElem (e : XNode) : Option SitemapEntry :=
  match (firstDesc "loc" e).map textOf with
  | none => none
  | some t =>
    if t = "" then none
    else some {
      url := t
      lastModified := textOrEmpty (firstDesc "lastmod" e)
      changeFrequency := "Sitemap Index"
      priority := ""
      alternates := none }

/-- The url-entry pass: all `url` elements of the document, in document
order, each processed by `entryOfUrlElem`. -/
def urlPass (root : XNode) : List SitemapEntry :=
  ((descList root).filter (isNamed "url")).filterMap entryOfUrlElem

/-- The sitemap-index pass: all `sitemap` elements, in document order. -/
def sitemapPass (root : XNode) : List SitemapEntry :=
  ((descList root).filter (isNamed "sitemap")).filterMap entryOfSitemapElem

/-- The error kinds the extractor can throw. -/
inductive SitemapError where
  | invalidXml
  | noUrlsFound
deriving Repr, DecidableEq

/-- The record-building part of `parseSitemap`, operating on a parsed
document: url pass, sitemap-index fallback when it is empty, error when
both passes are empty. -/
def parseSitemapDoc (root : XNode) : Except SitemapError (List SitemapEntry) :=
  let urls := urlPass root
  let urls2 := if urls.isEmpty then sitemapPass root else urls
  if urls2.isEmpty then .error .noUrlsFound else .ok urls2

/-- `extract`: `InvalidXml` when the parser failed (modelled as `none`),
otherwise the record passes over the parsed document. -/
def extract : Option XNode → Except SitemapError (List SitemapEntry)
  | none => .error .invalidXml
  | some root => parseSitemapDoc root

/-! ### The CSV serializer -/

/-- The header row, `headers.join(",")` in the source. -/
def csvHeader : String :=
  String.intercalate "," ["URL", "Last Modified", "Change Frequency", "Priority", "Alternates"]

/-- One field: the value wrapped in double quotes verbatim. -/
def quoteField (s : String) : String := "\"" ++ s ++ "\""

/-- One record row: the five quoted fields joined by commas, missing
`alternates` serialized as the empty string. -/
def csvRow (e : SitemapEntry) : String :=
  String.intercalate ","
    [quoteField e.url, quoteField e.lastModified, quoteField e.changeFrequency,
     quoteField e.priority, quoteField (e.alternates.getD "")]

/-- The serializer: header row and record rows joined by newlines. -/
def toCsv (l : List SitemapEntry) : String :=
  String.intercalate "\n" (csvHeader :: l.map csvRow)

lemma removeAllCIAux_irrel (pat : List Char) :
    ∀ (f1 : Nat) (f2 : Nat) (s : List Char), s.length ≤ f1 → s.length ≤ f2 →
      removeAllCIAux pat f1 s = removeAllCIAux pat f2 s := by
  intro f1
  induction f1 with
  | zero =>
    intro f2 s h1 h2
    have : s = [] := List.length_eq_zero.mp (Nat.le_zero.mp h1)
    subst this
    cases f2 <;> rfl
  | succ g1 ih =>
    intro f2 s h1 h2
    cases s with
    | nil => cases f2 <;> rfl
    | cons c cs =>
      cases f2 with
      | zero => simp at h2
      | succ g2 =>
        have e1 : removeAllCIAux pat (g1 + 1) (c :: cs) =
            (if 0 < pat.length ∧ ciMatchHead pat (c :: cs) then
              removeAllCIAux pat g1 (cs.drop (pat.length - 1))
            else c :: removeAllCIAux pat g1 cs) := rfl
        have e2 : removeAllCIAux pat (g2 + 1) (c :: cs) =
            (if 0 < pat.length ∧ ciMatchHead pat (c :: cs) then
              removeAllCIAux pat g2 (cs.drop (pat.length - 1))
            else c :: removeAllCIAux pat g2 cs) := rfl
        rw [e1, e2]
        simp only [List.length_cons] at h1 h2
        split
        · exact ih g2 _ (by rw [List.length_drop]; omega)
            (by rw [List.length_drop]; omega)
        · rw [ih g2 cs (by omega) (by omega)]

lemma removeAllCI_cons (pat : List Char) (c : Char) (cs : List Char) :
    removeAllCI pat (c :: cs) =
      if 0 < pat.length ∧ ciMatchHead pat (c :: cs) then
        removeAllCI pat (cs.drop (pat.length - 1))
      else c :: removeAllCI pat cs := by
  have e1 : removeAllCI pat (c :: cs) =
      (if 0 < pat.length ∧ ciMatchHead pat (c :: cs) then
        removeAllCIAux pat cs.length (cs.drop (pat.length - 1))
      else c :: removeAllCIAux pat cs.length cs) := rfl
  rw [e1]
  unfold removeAllCI
  split
  · exact removeAllCIAux_irrel pat cs.length _ _
      (by rw [List.length_drop]; omega) (Nat.le_refl _)
  · rfl

lemma toNat_ofNat_of_lt (n : Nat) (h : n < 55296) : (Char.ofNat n).toNat = n := by
  have hv : n.isValidChar := Or.inl h
  simp [Char.ofNat, hv, Char.ofNatAux, Char.toNat, UInt32.toNat]

lemma lowerc_eq_angle (c : Char) (h : lowerc c = '<') : c = '<' := by
  unfold lowerc at h
  split at h
  · next hb =>
    have h2 := congrArg Char.toNat h
    rw [toNat_ofNat_of_lt (c.toNat + 32) (by omega)] at h2
    have h3 : ('<').toNat = 60 := by decide
    omega
  · exact h

lemma mem_prefix_head (m : List Char) (c : Char) (l : List Char)
    (hp : m <+: c :: l) (hne : m ≠ []) : ∃ m2, m = c :: m2 := by
  rcases hp with ⟨t, ht⟩
  cases m with
  | nil => exact absurd rfl hne
  | cons a as => exact ⟨as, by injection ht with h1 _; rw [h1]⟩

lemma trimL_idem (l : List Char) : trimL (trimL l) = trimL l := by
  unfold trimL
  have h1 : (List.rdropWhile isWsp (List.dropWhile isWsp l)).dropWhile isWsp
      = List.rdropWhile isWsp (List.dropWhile isWsp l) := by
    cases hm : List.rdropWhile isWsp (List.dropWhile isWsp l) with
    | nil => simp
    | cons a as =>
      have hp : (a :: as) <+: List.dropWhile isWsp l :=
        hm ▸ List.rdropWhile_prefix isWsp (List.dropWhile isWsp l)
      cases hdd : List.dropWhile isWsp l with
      | nil => rw [hdd] at hp; simp at hp
      | cons b bs =>
        rw [hdd] at hp
        obtain ⟨m2, hm2⟩ := mem_prefix_head _ _ _ hp (by simp)
        have hb : ¬ isWsp b := by
          have hw := List.head_dropWhile_not isWsp l (by rw [hdd]; simp)
          simp only [hdd, List.head_cons] at hw
          simp [hw]
        injection hm2 with hab _
        subst hab
        rw [List.dropWhile_cons, if_neg hb]
  rw [h1, List.rdropWhile_idempotent]

lemma trimL_cons_of_head (c : Char) (l : List Char) (hc : ¬ isWsp c) :
    ∃ m, trimL (c :: l) = c :: m := by
  unfold trimL
  rw [List.dropWhile_cons, if_neg hc]
  have hne : List.rdropWhile isWsp (c :: l) ≠ [] := by
    rw [Ne, List.rdropWhile_eq_nil_iff]
    intro hall
    exact hc (hall c (by simp))
  exact mem_prefix_head _ _ _ ( List.rdropWhile_prefix isWsp (c :: l)) hne

lemma trimL_length_le (l : List Char) : (trimL l).length ≤ l.length := by
  unfold trimL
  calc (List.rdropWhile isWsp (List.dropWhile isWsp l)).length
      ≤ (List.dropWhile isWsp l).length :=
        List.IsPrefix.length_le ( List.rdropWhile_prefix isWsp _)
    _ ≤ l.length := List.IsSuffix.length_le (List.dropWhile_suffix isWsp)

lemma ciFind_cons_none (pat : List Char) (c : Char) (cs : List Char)
    (h : ciFind pat (c :: cs) = none) :
    ciMatchHead pat (c :: cs) = false ∧ ciFind pat cs = none := by
  unfold ciFind at h
  by_cases hm : ciMatchHead pat (c :: cs)
  · rw [if_pos hm] at h; exact absurd h (by simp)
  · rw [if_neg hm] at h
    exact ⟨by simp [hm], by simpa using h⟩

lemma removeAllCI_of_none (pat : List Char) (s : List Char)
    (h : ciFind pat s = none) : removeAllCI pat s = s := by
  induction s with
  | nil => rfl
  | cons c cs ih =>
    obtain ⟨h1, h2⟩ := ciFind_cons_none pat c cs h
    rw [removeAllCI_cons, if_neg (by simp [h1]), ih h2]

lemma ciMatchHead_of_find_zero (pat : List Char) (s : List Char)
    (h : ciMatchHead pat s = true) : ciFind pat s = some 0 := by
  cases s with
  | nil => unfold ciFind; rw [if_pos h]
  | cons c cs => unfold ciFind; rw [if_pos h]

lemma removeAllCIAux_length_le (pat : List Char) :
    ∀ (f : Nat) (s : List Char), (removeAllCIAux pat f s).length ≤ s.length := by
  intro f
  induction f with
  | zero => intro s; cases s <;> simp [removeAllCIAux]
  | succ g ih =>
    intro s
    cases s with
    | nil => simp [removeAllCIAux]
    | cons c cs =>
      rw [show removeAllCIAux pat (g + 1) (c :: cs) =
          (if 0 < pat.length ∧ ciMatchHead pat (c :: cs) then
            removeAllCIAux pat g (cs.drop (pat.length - 1))
          else c :: removeAllCIAux pat g cs) from rfl]
      split
      · have h1 := ih (cs.drop (pat.length - 1))
        rw [List.length_drop] at h1
        simp only [List.length_cons]
        omega
      · simpa using Nat.succ_le_succ (ih cs)

lemma removeAllCI_length_le (pat : List Char) (s : List Char) :
    (removeAllCI pat s).length ≤ s.length :=
  removeAllCIAux_length_le pat s.length s

lemma splitNl_ne_nil (s : List Char) : splitNl s ≠ [] := by
  cases s with
  | nil => simp [splitNl]
  | cons c cs =>
    unfold splitNl
    split
    · simp
    · split <;> simp_all

lemma joinNl_splitNl (s : List Char) : joinNl (splitNl s) = s := by
  induction s with
  | nil => rfl
  | cons c cs ih =>
    unfold splitNl
    by_cases hc : c = '\n'
    · rw [if_pos hc]
      cases hs : splitNl cs with
      | nil => exact absurd hs (splitNl_ne_nil cs)
      | cons l ls =>
        rw [hs] at ih
        subst hc
        simp only [joinNl, List.nil_append]
        rw [ih]
    · rw [if_neg hc]
      cases hs : splitNl cs with
      | nil => exact absurd hs (splitNl_ne_nil cs)
      | cons l ls =>
        rw [hs] at ih
        cases ls with
        | nil => simp only [joinNl] at ih ⊢; rw [ih]
        | cons l2 ls2 => simp only [joinNl] at ih ⊢; rw [List.cons_append, ih]

lemma joinNl_length_drop_le (k : Nat) (ls : List (List Char)) :
    (joinNl (ls.drop k)).length ≤ (joinNl ls).length := by
  induction k generalizing ls with
  | zero => simp
  | succ k ih =>
    cases ls with
    | nil => simp
    | cons l ls2 =>
      calc (joinNl ((l :: ls2).drop (k + 1))).length = (joinNl (ls2.drop k)).length := rfl
        _ ≤ (joinNl ls2).length := ih ls2
        _ ≤ (joinNl (l :: ls2)).length := by
            cases ls2 with
            | nil => simp [joinNl]
            | cons a as =>
              simp only [joinNl, List.length_append, List.length_cons]
              omega

lemma step1_length_le (s : List Char) : (step1 s).length ≤ s.length := by
  unfold step1
  calc (removeAllCI phrase4 (removeAllCI phrase3 (removeAllCI phrase2 (removeAllCI phrase1 s)))).length
      ≤ (removeAllCI phrase3 (removeAllCI phrase2 (removeAllCI phrase1 s))).length :=
        removeAllCI_length_le _ _
    _ ≤ (removeAllCI phrase2 (removeAllCI phrase1 s)).length := removeAllCI_length_le _ _
    _ ≤ (removeAllCI phrase1 s).length := removeAllCI_length_le _ _
    _ ≤ s.length := removeAllCI_length_le _ _

lemma step3_length_le (s : List Char) : (step3 s).length ≤ s.length := by
  unfold step3
  cases findXmlStart xmlPats s with
  | none => exact Nat.le_refl _
  | some i => simp

lemma step4_length_le (s : List Char) : (step4 s).length ≤ s.length := by
  unfold step4
  cases findIdxOpt lineOk (splitNl s) with
  | none => exact Nat.le_refl _
  | some k =>
    show (if 0 < k then joinNl ((splitNl s).drop k) else s).length ≤ s.length
    by_cases hk : 0 < k
    · rw [if_pos hk]
      calc (joinNl ((splitNl s).drop k)).length
          ≤ (joinNl (splitNl s)).length := joinNl_length_drop_le k (splitNl s)
        _ = s.length := by rw [joinNl_splitNl]
    · rw [if_neg hk]

/-- C9: the sanitizer never lengthens its input: every step only deletes
characters, so the length of the sanitized text is at most the length of
the input. -/
theorem cleanXml_length_le (x : String) : (cleanXml x).length ≤ x.length :=
  Nat.le_trans (trimL_length_le (step4 (step3 (trimL (step1 x.data)))))
    (Nat.le_trans (step4_length_le (step3 (trimL (step1 x.data))))
      (Nat.le_trans (step3_length_le (trimL (step1 x.data)))
        (Nat.le_trans (trimL_length_le (step1 x.data)) (step1_length_le x.data))))

theorem c2_counterexample :
    step3 "<urlset><?xml".data = "<?xml".data
    ∧ specStep3 "<urlset><?xml".data = "<urlset><?xml".data
    ∧ step3 "<urlset><?xml".data ≠ specStep3 "<urlset><?xml".data := by
  refine ⟨by decide, by decide, by decide⟩

theorem c2_amended_thm :
    (∀ s i, ciFind "<?xml".data s = some i → step3 s = s.drop i)
    ∧ (∀ s i, ciFind "<?xml".data s = none →
        ciFind "<urlset".data s = some i → step3 s = s.drop i)
    ∧ (∀ s i, ciFind "<?xml".data s = none → ciFind "<urlset".data s = none →
        ciFind "<sitemapindex".data s = some i → step3 s = s.drop i)
    ∧ (∀ s i, ciFind "<?xml".data s = none → ciFind "<urlset".data s = none →
        ciFind "<sitemapindex".data s = none →
        ciFind "<rss".data s = some i → step3 s = s.drop i)
    ∧ (∀ s i, ciFind "<?xml".data s = none → ciFind "<urlset".data s = none →
        ciFind "<sitemapindex".data s = none → ciFind "<rss".data s = none →
        ciFind "<feed".data s = some i → step3 s = s.drop i)
    ∧ (∀ s, ciFind "<?xml".data s = none → ciFind "<urlset".data s = none →
        ciFind "<sitemapindex".data s = none → ciFind "<rss".data s = none →
        ciFind "<feed".data s = none → step3 s = s) := by
  refine ⟨?_, ?_, ?_, ?_, ?_, ?_⟩ <;>
    · intros
      simp_all [step3, xmlPats, findXmlStart]

theorem c2_witness : step3 "junk<urlset".data = "junk<urlset".data.drop 4 :=
  c2_amended_thm.2.1 "junk<urlset".data 4 (by decide) (by decide)

/-- Whether none of the four boilerplate phrases occurs
(case-insensitively) in the text. -/
def phrasesAbsent (s : List Char) : Bool := phrases.all (fun p => (ciFind p s).isNone)

lemma step1_of_absent (s : List Char) (h : phrasesAbsent s = true) : step1 s = s := by
  simp only [phrasesAbsent, phrases, List.all_cons, List.all_nil, Bool.and_true,
    Bool.and_eq_true, Option.isNone_iff_eq_none] at h
  obtain ⟨h1, h2, h3, h4⟩ := h
  unfold step1
  rw [removeAllCI_of_none _ _ h1, removeAllCI_of_none _ _ h2,
    removeAllCI_of_none _ _ h3, removeAllCI_of_none _ _ h4]

lemma cleanXmlContent_fixed (y : List Char)
    (hT : trimL y = y)
    (h1 : phrasesAbsent y = true)
    (h2 : ciMatchHead "<?xml".data y = true) :
    cleanXmlContent y = y := by
  obtain ⟨c, cs, hcons⟩ : ∃ c cs, y = c :: cs := by
    cases hys : y with
    | nil => rw [hys] at h2; exact absurd h2 (by decide)
    | cons c cs => exact ⟨c, cs, rfl⟩
  have hlow : lowerc c = '<' := by
    rw [hcons] at h2
    have h2b : (lowerc '<' == lowerc c && ciMatchHead "?xml".data cs) = true := h2
    simp only [Bool.and_eq_true, beq_iff_eq] at h2b
    rw [← h2b.1]
    decide
  have hc : c = '<' := lowerc_eq_angle c hlow
  have hs1 : step1 y = y := step1_of_absent y h1
  have hs3 : step3 y = y := by
    have h0 : ciFind "<?xml".data y = some 0 := ciMatchHead_of_find_zero _ _ h2
    simp [step3, xmlPats, findXmlStart, h0]
  have hs4 : step4 y = y := by
    cases hsp : splitNl cs with
    | nil => exact absurd hsp (splitNl_ne_nil cs)
    | cons l ls =>
      have hsy : splitNl y = ('<' :: l) :: ls := by
        rw [hcons, hc]
        unfold splitNl
        rw [if_neg (by decide), hsp]
      have hok : lineOk ('<' :: l) = true := by
        obtain ⟨m, hm⟩ := trimL_cons_of_head '<' l (by decide)
        unfold lineOk
        rw [hm]
        simp
      simp [step4, hsy, findIdxOpt, hok]
  unfold cleanXmlContent
  rw [hs1, hT, hs3, hs4, hT]

/-- C3 amended: the sanitizer is idempotent on every input whose
sanitized form contains none of the four boilerplate phrases and begins
(case-insensitively) with an XML declaration opener. -/
theorem c3_amended_thm (x : List Char)
    (h1 : phrasesAbsent (cleanXmlContent x) = true)
    (h2 : ciMatchHead "<?xml".data (cleanXmlContent x) = true) :
    cleanXmlContent (cleanXmlContent x) = cleanXmlContent x := by
  have e0 : cleanXmlContent x = trimL (step4 (step3 (trimL (step1 x)))) := rfl
  have hT : trimL (cleanXmlContent x) = cleanXmlContent x := by
    rw [e0]
    exact trimL_idem (step4 (step3 (trimL (step1 x))))
  exact cleanXmlContent_fixed (cleanXmlContent x) hT h1 h2

theorem c3_counterexample :
    cleanXmlContent (cleanXmlContent "foo\n\nbar\n<x>".data)
      ≠ cleanXmlContent "foo\n\nbar\n<x>".data := by
  decide

theorem c3_witness :
    phrasesAbsent (cleanXmlContent "<?xml version=1.0?><urlset/>".data) = true
    ∧ ciMatchHead "<?xml".data (cleanXmlContent "<?xml version=1.0?><urlset/>".data) = true
    ∧ cleanXmlContent (cleanXmlContent "<?xml version=1.0?><urlset/>".data)
        = cleanXmlContent "<?xml version=1.0?><urlset/>".data :=
  ⟨by decide, by decide,
    c3_amended_thm "<?xml version=1.0?><urlset/>".data (by decide) (by decide)⟩

@[simp] lemma descList_text (s : String) : descList (.text s) = [] := by
  rw [descList]

@[simp] lemma descList_elem (n : String) (a : List (String × String)) (cs : List XNode) :
    descList (.elem n a cs) = .elem n a cs :: descListL cs := by
  rw [descList]

@[simp] lemma descListL_nil : descListL [] = [] := by
  rw [descListL]

@[simp] lemma descListL_cons (x : XNode) (xs : List XNode) :
    descListL (x :: xs) = descList x ++ descListL xs := by
  rw [descListL]

@[simp] lemma textOf_text (s : String) : textOf (.text s) = s := by
  rw [textOf]

@[simp] lemma textOf_elem (n : String) (a : List (String × String)) (cs : List XNode) :
    textOf (.elem n a cs) = textOfL cs := by
  rw [textOf]

@[simp] lemma textOfL_nil : textOfL [] = "" := by
  rw [textOfL]

@[simp] lemma textOfL_cons (x : XNode) (xs : List XNode) :
    textOfL (x :: xs) = textOf x ++ textOfL xs := by
  rw [textOfL]

/-- C5: the serializer emits the exact header row for an empty record
list, the documented end-to-end example row, and in general one row per
record of five individually double-quoted fields joined by commas and
newlines, each field passed through verbatim (no escaping) and a missing
`alternates` serialized as the empty string. -/
theorem toCsv_spec :
    toCsv [] = "URL,Last Modified,Change Frequency,Priority,Alternates"
    ∧ toCsv [⟨"https://a.com/", "", "", "0.5", none⟩]
        = "URL,Last Modified,Change Frequency,Priority,Alternates\n\"https://a.com/\",\"\",\"\",\"0.5\",\"\""
    ∧ (∀ s, quoteField s = "\"" ++ s ++ "\"")
    ∧ (∀ e, csvRow e = String.intercalate ","
        [quoteField e.url, quoteField e.lastModified, quoteField e.changeFrequency,
         quoteField e.priority, quoteField (e.alternates.getD "")])
    ∧ (∀ l, toCsv l = String.intercalate "\n" (csvHeader :: l.map csvRow)) :=
  ⟨rfl, rfl, fun _ => rfl, fun _ => rfl, fun _ => rfl⟩

/-- C6: the extractor never succeeds with an empty record list: a failed
parse yields `InvalidXml`, a parsed document on which both passes are
empty yields `NoUrlsFound`, and any successful result is non-empty. -/
theorem extract_error_taxonomy :
    extract none = .error .invalidXml
    ∧ (∀ root, urlPass root = [] → sitemapPass root = [] →
        extract (some root) = .error .noUrlsFound)
    ∧ (∀ p l, extract p = .ok l → l ≠ []) := by
  refine ⟨rfl, ?_, ?_⟩
  · intro root h1 h2
    simp [extract, parseSitemapDoc, h1, h2]
  · intro p l h
    cases p with
    | none => exact absurd h (by simp [extract])
    | some root =>
      intro hnil
      subst hnil
      by_cases h1 : urlPass root = [] <;> by_cases h2 : sitemapPass root = [] <;>
        simp [extract, parseSitemapDoc, h1, h2] at h

/-- C6 witness: a parsed document with neither `url` nor `sitemap`
elements fails with `NoUrlsFound`. -/
theorem extract_error_taxonomy_witness :
    extract (some (.elem "div" [] [])) = .error .noUrlsFound :=
  extract_error_taxonomy.2.1 (.elem "div" [] []) rfl rfl

lemma entryOfUrlElem_url_ne (e : XNode) (r : SitemapEntry)
    (h : entryOfUrlElem e = some r) : r.url ≠ "" := by
  cases hfd : (firstDesc "loc" e).map textOf with
  | none => simp [entryOfUrlElem, hfd] at h
  | some t =>
    simp only [entryOfUrlElem, hfd] at h
    by_cases ht : t = ""
    · simp [ht] at h
    · rw [if_neg ht] at h
      injection h with h2
      rw [← h2]
      exact ht

lemma entryOfSitemapElem_url_ne (e : XNode) (r : SitemapEntry)
    (h : entryOfSitemapElem e = some r) : r.url ≠ "" := by
  cases hfd : (firstDesc "loc" e).map textOf with
  | none => simp [entryOfSitemapElem, hfd] at h
  | some t =>
    simp only [entryOfSitemapElem, hfd] at h
    by_cases ht : t = ""
    · simp [ht] at h
    · rw [if_neg ht] at h
      injection h with h2
      rw [← h2]
      exact ht

/-- C7: every record of a successful extraction has a non-empty url. -/
theorem extract_url_nonempty :
    ∀ p l, extract p = .ok l → ∀ r ∈ l, r.url ≠ "" := by
  intro p l h r hr
  cases p with
  | none => exact absurd h (by simp [extract])
  | some root =>
    by_cases h1 : urlPass root = []
    · by_cases h2 : sitemapPass root = []
      · simp [extract, parseSitemapDoc, h1, h2] at h
      · simp [extract, parseSitemapDoc, h1, h2] at h
        rw [← h] at hr
        simp only [sitemapPass] at hr
        obtain ⟨e, -, he⟩ := List.mem_filterMap.mp hr
        exact entryOfSitemapElem_url_ne e r he
    · simp [extract, parseSitemapDoc, h1] at h
      rw [← h] at hr
      simp only [urlPass] at hr
      obtain ⟨e, -, he⟩ := List.mem_filterMap.mp hr
      exact entryOfUrlElem_url_ne e r he

/-- C7 witness: the record extracted from a concrete one-url sitemap has
a non-empty url. -/
theorem extract_url_nonempty_witness :
    (⟨"https://a.com/", "", "", "", none⟩ : SitemapEntry).url ≠ "" :=
  extract_url_nonempty
    (some (.elem "urlset" [] [.elem "url" [] [.elem "loc" [] [.text "https://a.com/"]]]))
    [⟨"https://a.com/", "", "", "", none⟩]
    rfl _ (by simp)

/-- C8 counterexample: a `url` element with no `loc` child but a `loc`
grandchild (inside a `foo` child) still yields a record, because the
source's `querySelector("loc")` searches all descendants, not only
children; the claim predicts zero records for this document. -/
theorem c8_counterexample :
    (childrenOf (XNode.elem "url" []
        [.elem "foo" [] [.elem "loc" [] [.text "https://x/"]]])).filter (isNamed "loc") = []
    ∧ extract (some (.elem "urlset" []
        [.elem "url" [] [.elem "foo" [] [.elem "loc" [] [.text "https://x/"]]]]))
      = .ok [⟨"https://x/", "", "", "", none⟩] :=
  ⟨rfl, rfl⟩

/-- C8 amended: a `url` element with no `loc` descendant at all is
skipped entirely: it contributes no record. -/
theorem c8_amended_thm :
    ∀ e, (subDescs e).filter (isNamed "loc") = [] → entryOfUrlElem e = none := by
  intro e h
  unfold entryOfUrlElem firstDesc
  rw [h]
  rfl

/-- C8 witness: a concrete childless `url` element is skipped. -/
theorem c8_witness : entryOfUrlElem (.elem "url" [] []) = none :=
  c8_amended_thm (.elem "url" [] []) rfl

/-- C1 counterexample: a well-formed sitemap whose single `url` element
contains a `loc` child with empty text yields no record at all (the
source's truthiness test on the text skips it, and the empty result then
raises `NoUrlsFound`), while the claim predicts exactly one record whose
url equals the empty loc text. -/
theorem c1_counterexample :
    extract (some (.elem "urlset" [] [.elem "url" [] [.elem "loc" [] []]]))
      = .error .noUrlsFound
    ∧ extract (some (.elem "urlset" [] [.elem "url" [] [.elem "loc" [] []]]))
      ≠ .ok [⟨"", "", "", "", none⟩] := by
  refine ⟨rfl, ?_⟩
  intro h
  rw [show extract (some (.elem "urlset" [] [.elem "url" [] [.elem "loc" [] []]]))
      = Except.error .noUrlsFound from rfl] at h
  exact Except.noConfusion h

/-- Whether an element has a location: its first `loc` descendant
exists and carries non-empty text (the source's truthiness test, used
for both `url` and `sitemap` elements). -/
def hasLocation (e : XNode) : Bool := !(textOrEmpty (firstDesc "loc" e) == "")

/-- The record built for a located `sitemap` element: fixed
`changeFrequency` marker, empty `priority`, no alternates. -/
def sitemapRecordOf (e : XNode) : SitemapEntry :=
  ⟨textOrEmpty (firstDesc "loc" e), textOrEmpty (firstDesc "lastmod" e),
   "Sitemap Index", "", none⟩

lemma entryOfSitemapElem_eq (e : XNode) :
    entryOfSitemapElem e = if hasLocation e then some (sitemapRecordOf e) else none := by
  cases hfd : firstDesc "loc" e with
  | none => simp [entryOfSitemapElem, hasLocation, hfd, textOrEmpty]
  | some le =>
    by_cases ht : textOf le = ""
    · simp [entryOfSitemapElem, hasLocation, hfd, textOrEmpty, ht]
    · simp [entryOfSitemapElem, hasLocation, hfd, textOrEmpty, ht, sitemapRecordOf]

lemma filterMap_guard {α β : Type} (p : α → Bool) (f : α → β) (g : α → Option β)
    (hg : ∀ a, g a = if p a then some (f a) else none) (l : List α) :
    l.filterMap g = (l.filter p).map f := by
  induction l with
  | nil => rfl
  | cons a as ih =>
    rw [List.filterMap_cons, List.filter_cons, hg a]
    by_cases hp : p a
    · simp [hp, ih]
    · simp [hp, ih]

/-- C4: on a document whose url pass is empty and which has at least one
located `sitemap` element, the extractor returns one record per located
`sitemap` element, in document order, each with the fixed index marker
as `changeFrequency` and the empty string as `priority`. -/
theorem c4_thm (root : XNode) (h0 : urlPass root = [])
    (h1 : ((descList root).filter (isNamed "sitemap")).filter hasLocation ≠ []) :
    extract (some root)
      = .ok ((((descList root).filter (isNamed "sitemap")).filter hasLocation).map sitemapRecordOf)
    ∧ ∀ r ∈ (((descList root).filter (isNamed "sitemap")).filter hasLocation).map sitemapRecordOf,
        r.changeFrequency = "Sitemap Index" ∧ r.priority = "" := by
  have hs : sitemapPass root
      = (((descList root).filter (isNamed "sitemap")).filter hasLocation).map sitemapRecordOf :=
    filterMap_guard hasLocation sitemapRecordOf entryOfSitemapElem entryOfSitemapElem_eq _
  have hne2 : (((descList root).filter (isNamed "sitemap")).filter
      hasLocation).map sitemapRecordOf ≠ [] := by
    simpa using h1
  constructor
  · simp [extract, parseSitemapDoc, h0, hs]
    simpa using h1
  · intro r hr
    obtain ⟨e, -, he⟩ := List.mem_map.mp hr
    rw [← he]
    exact ⟨rfl, rfl⟩

/-- A concrete two-entry sitemap-index document. -/
def c4doc : XNode :=
  .elem "sitemapindex" []
    [.elem "sitemap" [] [.elem "loc" [] [.text "https://a.com/s1.xml"]],
     .elem "sitemap" [] [.elem "loc" [] [.text "https://a.com/s2.xml"]]]

/-- C4 witness: a concrete two-entry sitemap index. -/
theorem c4_witness :
    extract (some c4doc)
      = .ok ((((descList c4doc).filter
          (isNamed "sitemap")).filter hasLocation).map sitemapRecordOf) :=
  (c4_thm c4doc rfl (List.cons_ne_nil _ _)).1

lemma extract_of_urlPass_ne (root : XNode) (h : urlPass root ≠ []) :
    extract (some root) = .ok (urlPass root) := by
  have hb : (urlPass root).isEmpty = false := by
    rw [Bool.eq_false_iff]
    intro hx
    exact h (List.isEmpty_eq_true.mp hx)
  simp [extract, parseSitemapDoc, hb]

/-- The record the url pass builds for a located `url` element: the
texts of the first loc, lastmod, changefreq and priority descendants
(empty when absent) and the joined alternate pairs when at least one
alternate link exists. -/
def urlRecordOf (e : XNode) : SitemapEntry :=
  ⟨textOrEmpty (firstDesc "loc" e), textOrEmpty (firstDesc "lastmod" e),
   textOrEmpty (firstDesc "changefreq" e), textOrEmpty (firstDesc "priority" e),
   match linkDescs e with
   | [] => none
   | alts => some (String.intercalate "; " (alts.map altPair))⟩

lemma entryOfUrlElem_eq (e : XNode) :
    entryOfUrlElem e = if hasLocation e then some (urlRecordOf e) else none := by
  cases hfd : firstDesc "loc" e with
  | none => simp [entryOfUrlElem, hasLocation, hfd, textOrEmpty]
  | some le =>
    by_cases ht : textOf le = ""
    · simp [entryOfUrlElem, hasLocation, hfd, textOrEmpty, ht]
    · simp [entryOfUrlElem, hasLocation, hfd, textOrEmpty, ht, urlRecordOf]

lemma urlPass_eq (root : XNode) :
    urlPass root
      = (((descList root).filter (isNamed "url")).filter hasLocation).map urlRecordOf :=
  filterMap_guard hasLocation urlRecordOf entryOfUrlElem entryOfUrlElem_eq _

/-- C1 amended: for every well-formed document with at least one `url`
element whose first `loc` descendant (in document order) has non-empty
text, extract returns exactly one record per such `url` element, in
document order, and each record's url equals the text content of that
element's first `loc` descendant; `url` elements without such a located
`loc` contribute nothing. -/
theorem c1_amended_thm (root : XNode)
    (h1 : ((descList root).filter (isNamed "url")).filter hasLocation ≠ []) :
    extract (some root)
      = .ok ((((descList root).filter (isNamed "url")).filter hasLocation).map urlRecordOf)
    ∧ ∀ e ∈ ((descList root).filter (isNamed "url")).filter hasLocation,
        (urlRecordOf e).url = textOrEmpty (firstDesc "loc" e)
        ∧ (urlRecordOf e).url ≠ "" := by
  have hM : (((descList root).filter (isNamed "url")).filter hasLocation).map urlRecordOf
      ≠ [] := by
    simpa using h1
  have hu2 : urlPass root ≠ [] := by
    rw [urlPass_eq root]
    exact hM
  refine ⟨?_, ?_⟩
  · rw [extract_of_urlPass_ne root hu2, urlPass_eq root]
  · intro e he
    refine ⟨rfl, ?_⟩
    have hloc : hasLocation e := (List.mem_filter.mp he).2
    simp only [hasLocation, Bool.not_eq_true', beq_iff_eq] at hloc
    simpa [urlRecordOf] using hloc

/-- A concrete two-url sitemap document. -/
def c1doc : XNode :=
  .elem "urlset" []
    [.elem "url" []
      [.elem "loc" [] [.text "https://a.com/"], .elem "priority" [] [.text "0.5"]],
     .elem "url" [] [.elem "loc" [] [.text "https://b.com/"]]]

/-- C1 witness: the two-url document extracts to one record per located
url element. -/
theorem c1_witness :
    extract (some c1doc)
      = .ok ((((descList c1doc).filter (isNamed "url")).filter hasLocation).map urlRecordOf) :=
  (c1_amended_thm c1doc (List.cons_ne_nil _ _)).1

/-- C10: an alternate link lacking the `hreflang` attribute, the `href`
attribute, or both, still contributes its pair to the alternates string,
with the literal text `null` in place of each missing attribute value. -/
theorem c10_thm (t href lang : String) (h : t ≠ "") :
    entryOfUrlElem (.elem "url" []
      [.elem "loc" [] [.text t], .elem "link" [("href", href)] [],
       .elem "link" [("hreflang", lang)] [], .elem "link" [] []])
    = some ⟨t, "", "", "",
        some ("null: " ++ href ++ "; " ++ lang ++ ": null; null: null")⟩ := by
  simp [entryOfUrlElem, firstDesc, subDescs, childrenOf, isNamed, linkDescs, isLinkEl,
    textOrEmpty, lookupAttr, altPair, attrOrNull, h, String.intercalate,
    String.intercalate.go, String.append_assoc]

/-- C10 witness: a concrete url element with three alternate links, one
lacking `hreflang`, one lacking `href`, one lacking both. -/
theorem c10_witness :
    entryOfUrlElem (.elem "url" []
      [.elem "loc" [] [.text "https://a.com/"],
       .elem "link" [("href", "https://a.com/en")] [],
       .elem "link" [("hreflang", "fr")] [], .elem "link" [] []])
    = some ⟨"https://a.com/", "", "", "",
        some ("null: " ++ "https://a.com/en" ++ "; " ++ "fr" ++ ": null; null: null")⟩ :=
  c10_thm "https://a.com/" "https://a.com/en" "fr" (by decide)
